import Mathlib

/-!
Verification of the Hobeta header codec (src/zxtools/hobeta.py).

The file models the byte-level behaviour of the three operations of the
program: `calc_checksum`, `parse_info` and `strip_header` (with the copy
loop of the latter factored out as `copy_loop` and `copy_phase`).  A file
is a list of byte values together with a read position (`FileState`);
`read`, `seek` and `tell` of the Python file object are embedded as
`fread`, `fseek`, `fseekEnd` and `ftell`.  A decode failure of
`struct.unpack_from` on a short buffer (fewer than 17 bytes, the
`TruncatedInputError` of the specification) is `none`.
-/

namespace Hobeta

/-- State of a seekable byte stream: its contents and the read cursor. -/
structure FileState where
  contents : List Nat
  pos : Nat
deriving Repr, DecidableEq

/-- Embedding of `f.read(n)`: returns up to `n` bytes from the cursor and
advances the cursor by the number of bytes actually produced. -/
def fread (n : Nat) (s : FileState) : List Nat × FileState :=
  let data := (s.contents.drop s.pos).take n
  (data, { s with pos := s.pos + data.length })

/-- Embedding of `f.seek(off)` (absolute). -/
def fseek (off : Nat) (s : FileState) : FileState :=
  { s with pos := off }

/-- Embedding of `f.seek(0, os.SEEK_END)`. -/
def fseekEnd (s : FileState) : FileState :=
  { s with pos := s.contents.length }

/-- Embedding of `f.tell()`. -/
def ftell (s : FileState) : Nat := s.pos

/-- Size of the packed header, `struct.calcsize(HEADER_FMT)` for the
format string `<8sBHHBBH` : 8 + 1 + 2 + 2 + 1 + 1 + 2 = 17 bytes. -/
def header_size : Nat := 17

/-- The chunk size of the copy loop in `strip_header`: 512 KBytes. -/
def buf_size : Nat := 512 * 1024

/-- The `Header` namedtuple of hobeta.py. -/
structure Header where
  filename : List Nat
  filetype : Nat
  start : Nat
  length : Nat
  first_sector : Nat
  occupied_sectors : Nat
  check_sum : Nat
deriving Repr, DecidableEq

/-- A 16-bit little-endian value from its two bytes, as `struct` reads
an `H` field. -/
def le16 (lo hi : Nat) : Nat := lo + 256 * hi

/-- Embedding of `calc_checksum`: `enumerate` the data and fold
`check_sum = numpy.uint16(check_sum + value*257 + i)`; the `numpy.uint16`
conversion truncates modulo 65536 at every step. -/
def calc_checksum (data : List Nat) : Nat :=
  data.enum.foldl (fun acc p => (acc + p.2 * 257 + p.1) % 65536) 0

/-- Embedding of `struct.unpack_from('<8sBHHBBH', data)` followed by
`Header._make`: fails when the buffer holds fewer than 17 bytes, and
otherwise consumes the fields in order (8 raw bytes, one `B`, two `H`,
two `B`, one `H`), ignoring any bytes past the 17th. -/
def unpackHeader (d : List Nat) : Option Header :=
  if d.length < header_size then none
  else
    match d.drop 8 with
    | ft :: s0 :: s1 :: l0 :: l1 :: fs :: os :: c0 :: c1 :: _ =>
        some ⟨d.take 8, ft, le16 s0 s1, le16 l0 l1, fs, os, le16 c0 c1⟩
    | _ => none

/-- Embedding of `parse_info`: read 17 bytes, compute the checksum of the
first `17 - 2` of them, then unpack the header.  The result pairs the
optional outcome with the file state left behind by the read. -/
def parse_info (s : FileState) : Option (Header × Nat) × FileState :=
  let r := fread header_size s
  let actual_check_sum := calc_checksum (r.1.take (header_size - 2))
  match unpackHeader r.1 with
  | none => (none, r.2)
  | some header => (some (header, actual_check_sum), r.2)

/-- The copy loop of `strip_header`: while the remaining budget is not
zero, read `min buf_size length` bytes; stop when the read comes back
empty; otherwise write the chunk to the sink and decrease the budget by
the number of bytes actually read.  Returns the sink contents, the
remaining budget and the final file state. -/
def copy_loop (len : Nat) (s : FileState) (sink : List Nat) :
    List Nat × Nat × FileState :=
  if h0 : len = 0 then (sink, len, s)
  else
    let r := fread (min buf_size len) s
    if hd : r.1 = [] then (sink, len, r.2)
    else copy_loop (len - r.1.length) r.2 (sink ++ r.1)
termination_by len
decreasing_by
  have hpos : 0 < r.1.length := List.length_pos.mpr hd
  exact Nat.sub_lt (Nat.pos_of_ne_zero h0) hpos

/-- The part of `strip_header` between the checksum warning and the final
message: seek to the end to learn the file size, choose the byte budget
(`hobeta_file_size - header_size` when `ignore_header` is set, the
`length` field of the header otherwise), seek back to byte 17 and run the
copy loop.  Returns the budget, the bytes written to the sink, and
`bytes_to_copy - length` (the count of bytes actually copied). -/
def copy_phase (header : Header) (ignore_header : Bool) (s : FileState) :
    Nat × List Nat × Nat :=
  let s2 := fseekEnd s
  let hobeta_file_size := ftell s2
  let bytes_to_copy :=
    if ignore_header then hobeta_file_size - header_size else header.length
  let s3 := fseek header_size s2
  let r := copy_loop bytes_to_copy s3 []
  (bytes_to_copy, r.1, bytes_to_copy - r.2.1)

/-- Embedding of `strip_header`: parse the header (propagating its
failure), compare the stored checksum against the computed one for the
warning, and run the copy phase.  Returns the warning flag, the sink
contents and the reported byte count. -/
def strip_header (s : FileState) (ignore_header : Bool) :
    Option (Bool × List Nat × Nat) :=
  match (parse_info s).1 with
  | none => none
  | some (header, crc) =>
      let r := copy_phase header ignore_header (parse_info s).2
      some (header.check_sum != crc, r.2.1, r.2.2)

/-- Embedding of the data `show_info` derives from the header before
formatting it: the parsed header, the computed checksum, and the result
of the `crc == header.check_sum` comparison that selects between the
`(OK)` and the `(WRONG! ...)` message. -/
def show_info (s : FileState) : Option (Header × Nat × Bool) :=
  match (parse_info s).1 with
  | none => none
  | some (header, crc) => some (header, crc, crc == header.check_sum)

/-- Modelled from the spec: the reference checksum recurrence, iterating
bytes by zero-based index `i` with the accumulator starting at 0, each
step setting the accumulator to `(accumulator + b*257 + i) mod 65536`. -/
def checksum_spec_from (i acc : Nat) : List Nat → Nat
  | [] => acc
  | b :: rest => checksum_spec_from (i + 1) ((acc + b * 257 + i) % 65536) rest

/-- Modelled from the spec: the reference checksum of a byte sequence. -/
def checksum_spec (data : List Nat) : Nat := checksum_spec_from 0 0 data

/-- The header produced by decoding a 17-byte buffer, written field by
field with the little-endian layout made explicit. -/
def mkHeader (d : List Nat) : Header :=
  ⟨d.take 8, d.getD 8 0,
   le16 (d.getD 9 0) (d.getD 10 0),
   le16 (d.getD 11 0) (d.getD 12 0),
   d.getD 13 0, d.getD 14 0,
   le16 (d.getD 15 0) (d.getD 16 0)⟩

/-- Sum of the `n` consecutive indices starting at `i`. -/
def idxSum (i : Nat) : Nat → Nat
  | 0 => 0
  | n + 1 => i + idxSum (i + 1) n

/-! ## Helper lemmas -/

theorem take_chunk_append (R : List Nat) (B len : Nat) :
    R.take (min B len) ++
      (R.drop (R.take (min B len)).length).take (len - (R.take (min B len)).length)
      = R.take len := by
  obtain ⟨d, hd⟩ : ∃ d, (R.take (min B len)).length = d := ⟨_, rfl⟩
  rw [hd]
  have hdval : d = min (min B len) R.length := by
    rw [← hd]
    simp [List.length_take]
  have h1 : R.take (min B len) = R.take d := by
    rw [List.take_eq_take]
    omega
  rw [h1, ← List.take_add]
  congr 1
  omega

/-- The copy loop appends exactly the first `len` remaining bytes to the
sink and leaves `len - min len remaining` of the budget unspent. -/
theorem copy_loop_spec (len : Nat) : ∀ (s : FileState) (sink : List Nat),
    (copy_loop len s sink).1 = sink ++ (s.contents.drop s.pos).take len ∧
    (copy_loop len s sink).2.1 = len - min len (s.contents.length - s.pos) := by
  induction len using Nat.strong_induction_on with
  | _ len ih =>
    intro s sink
    rw [copy_loop]
    by_cases h0 : len = 0
    · subst h0
      simp
    · rw [dif_neg h0]
      simp only [fread]
      split
      · rename_i hd
        rcases List.take_eq_nil_iff.mp hd with hm | hnil
        · exfalso
          have hb : 0 < buf_size := by norm_num [buf_size]
          omega
        · have h1 : s.contents.length - s.pos = 0 := by
            simpa using congrArg List.length hnil
          simp [hnil, h1]
      · rename_i hd
        have hdlen : ((s.contents.drop s.pos).take (min buf_size len)).length
            = min (min buf_size len) (s.contents.length - s.pos) := by
          simp [List.length_take]
        have hpos : 0 < ((s.contents.drop s.pos).take (min buf_size len)).length :=
          List.length_pos.mpr hd
        obtain ⟨k1, k2⟩ := ih
          (len - ((s.contents.drop s.pos).take (min buf_size len)).length)
          (by omega)
          { contents := s.contents,
            pos := s.pos + ((s.contents.drop s.pos).take (min buf_size len)).length }
          (sink ++ (s.contents.drop s.pos).take (min buf_size len))
        rw [k1, k2]
        dsimp only
        constructor
        · rw [List.append_assoc]
          congr 1
          have hdrop : s.contents.drop
              (s.pos + ((s.contents.drop s.pos).take (min buf_size len)).length)
              = (s.contents.drop s.pos).drop
                  ((s.contents.drop s.pos).take (min buf_size len)).length :=
            (List.drop_drop _ _ _).symm
          rw [hdrop]
          exact take_chunk_append (s.contents.drop s.pos) buf_size len
        · rw [hdlen]
          omega


theorem copy_phase_eq (header : Header) (ig : Bool) (s : FileState) :
    copy_phase header ig s =
      ((if ig then s.contents.length - 17 else header.length),
       (s.contents.drop 17).take (if ig then s.contents.length - 17 else header.length),
       min (if ig then s.contents.length - 17 else header.length)
         (s.contents.length - 17)) := by
  obtain ⟨c1, c2⟩ := copy_loop_spec
    (if ig then s.contents.length - 17 else header.length)
    ⟨s.contents, 17⟩ []
  dsimp only at c1 c2
  unfold copy_phase fseekEnd ftell fseek header_size
  dsimp only
  rw [c1, c2]
  simp only [List.nil_append]
  refine congrArg _ (congrArg _ ?_)
  omega

theorem checksum_spec_from_eq (l : List Nat) : ∀ (i acc : Nat),
    (List.enumFrom i l).foldl (fun acc p => (acc + p.2 * 257 + p.1) % 65536) acc
      = checksum_spec_from i acc l := by
  induction l with
  | nil => intro i acc; rfl
  | cons b rest ih =>
      intro i acc
      simp only [List.enumFrom, List.foldl, checksum_spec_from]
      exact ih (i + 1) _

theorem calc_checksum_eq_spec (data : List Nat) :
    calc_checksum data = checksum_spec data := by
  unfold calc_checksum checksum_spec
  exact checksum_spec_from_eq data 0 0

theorem checksum_spec_from_closed (l : List Nat) : ∀ (i acc : Nat), acc < 65536 →
    checksum_spec_from i acc l = (acc + 257 * l.sum + idxSum i l.length) % 65536 := by
  induction l with
  | nil =>
      intro i acc h
      simp [checksum_spec_from, idxSum, Nat.mod_eq_of_lt h]
  | cons b rest ih =>
      intro i acc h
      rw [checksum_spec_from, ih (i + 1) _ (Nat.mod_lt _ (by norm_num))]
      simp only [List.sum_cons, List.length_cons, idxSum]
      omega

theorem calc_checksum_closed (l : List Nat) :
    calc_checksum l = (257 * l.sum + idxSum 0 l.length) % 65536 := by
  rw [calc_checksum_eq_spec]
  unfold checksum_spec
  simpa using checksum_spec_from_closed l 0 0 (by norm_num)



theorem unpackHeader_eq (d : List Nat) (h : d.length = 17) :
    unpackHeader d = some (mkHeader d) := by
  rcases d with _ | ⟨b0, d⟩
  · simp only [List.length_nil] at h; omega
  rcases d with _ | ⟨b1, d⟩
  · simp only [List.length_cons, List.length_nil] at h; omega
  rcases d with _ | ⟨b2, d⟩
  · simp only [List.length_cons, List.length_nil] at h; omega
  rcases d with _ | ⟨b3, d⟩
  · simp only [List.length_cons, List.length_nil] at h; omega
  rcases d with _ | ⟨b4, d⟩
  · simp only [List.length_cons, List.length_nil] at h; omega
  rcases d with _ | ⟨b5, d⟩
  · simp only [List.length_cons, List.length_nil] at h; omega
  rcases d with _ | ⟨b6, d⟩
  · simp only [List.length_cons, List.length_nil] at h; omega
  rcases d with _ | ⟨b7, d⟩
  · simp only [List.length_cons, List.length_nil] at h; omega
  rcases d with _ | ⟨b8, d⟩
  · simp only [List.length_cons, List.length_nil] at h; omega
  rcases d with _ | ⟨b9, d⟩
  · simp only [List.length_cons, List.length_nil] at h; omega
  rcases d with _ | ⟨b10, d⟩
  · simp only [List.length_cons, List.length_nil] at h; omega
  rcases d with _ | ⟨b11, d⟩
  · simp only [List.length_cons, List.length_nil] at h; omega
  rcases d with _ | ⟨b12, d⟩
  · simp only [List.length_cons, List.length_nil] at h; omega
  rcases d with _ | ⟨b13, d⟩
  · simp only [List.length_cons, List.length_nil] at h; omega
  rcases d with _ | ⟨b14, d⟩
  · simp only [List.length_cons, List.length_nil] at h; omega
  rcases d with _ | ⟨b15, d⟩
  · simp only [List.length_cons, List.length_nil] at h; omega
  rcases d with _ | ⟨b16, d⟩
  · simp only [List.length_cons, List.length_nil] at h; omega
  rcases d with _ | ⟨b17, d⟩
  · rfl
  · simp only [List.length_cons, List.length_nil] at h; omega



theorem parse_info_eq (c : List Nat) (h : 17 ≤ c.length) :
    parse_info ⟨c, 0⟩ =
      (some (mkHeader (c.take 17), calc_checksum (c.take 15)), ⟨c, 17⟩) := by
  have hlen : (c.take 17).length = 17 := by
    simp only [List.length_take]
    omega
  unfold parse_info fread header_size
  dsimp only
  rw [List.drop_zero, unpackHeader_eq _ hlen]
  dsimp only
  have h15 : (c.take 17).take (17 - 2) = c.take 15 := by
    rw [List.take_take]
    norm_num
  rw [h15, hlen]

theorem strip_header_eq (c : List Nat) (ig : Bool) (h : 17 ≤ c.length) :
    strip_header ⟨c, 0⟩ ig =
      some ((mkHeader (c.take 17)).check_sum != calc_checksum (c.take 15),
        (c.drop 17).take
          (if ig then c.length - 17 else (mkHeader (c.take 17)).length),
        min (if ig then c.length - 17 else (mkHeader (c.take 17)).length)
          (c.length - 17)) := by
  unfold strip_header
  rw [parse_info_eq c h]
  dsimp only
  rw [copy_phase_eq]



/-! ## Claim theorems -/


/-- C1: for every byte sequence the checksum equals the reference
recurrence (accumulator starting at 0, each step taking the value
`(accumulator + b*257 + i) mod 65536` with truncation at every step), and
the checksum computed while decoding a header covers exactly the first 15
of the 17 header bytes. -/
theorem checksum_reference_recurrence (data c : List Nat) (h : 17 ≤ c.length) :
    calc_checksum data = checksum_spec data ∧
    (parse_info ⟨c, 0⟩).1.map Prod.snd
      = some (calc_checksum ((c.take 17).take 15)) := by
  refine ⟨calc_checksum_eq_spec data, ?_⟩
  rw [parse_info_eq c h]
  simp [List.take_take]

theorem checksum_reference_recurrence_witness :
    17 ≤ (List.replicate 17 1).length ∧
    (calc_checksum [3, 200, 255] = checksum_spec [3, 200, 255] ∧
     (parse_info ⟨List.replicate 17 1, 0⟩).1.map Prod.snd
       = some (calc_checksum (((List.replicate 17 1).take 17).take 15))) :=
  ⟨by decide, checksum_reference_recurrence [3, 200, 255] (List.replicate 17 1)
    (by decide)⟩

/-- C2 as stated is false: swapping the distinct bytes 1 and 2 at the
distinct indices 0 and 1 of a 15-byte input leaves the checksum
unchanged. -/
theorem checksum_swap_counterexample :
    (1 : Nat) ≠ 2 ∧
    ([1, 2, 0, 0, 0, 0, 0, 0, 0, 0, 0, 0, 0, 0, 0] : List Nat).length = 15 ∧
    calc_checksum [1, 2, 0, 0, 0, 0, 0, 0, 0, 0, 0, 0, 0, 0, 0]
      = calc_checksum [2, 1, 0, 0, 0, 0, 0, 0, 0, 0, 0, 0, 0, 0, 0] := by
  refine ⟨by decide, by decide, by decide⟩

/-- C2 amended: the checksum is not order-sensitive; swapping the byte
values at any two different indices never changes the result, so the
checksum is a function of the byte multiset and length alone. -/
theorem checksum_swap_invariant (a b c : List Nat) (x y : Nat) :
    calc_checksum (a ++ x :: b ++ y :: c)
      = calc_checksum (a ++ y :: b ++ x :: c) := by
  rw [calc_checksum_closed, calc_checksum_closed]
  have hs : (a ++ x :: b ++ y :: c).sum = (a ++ y :: b ++ x :: c).sum := by
    simp [List.sum_append]
    omega
  have hl : (a ++ x :: b ++ y :: c).length = (a ++ y :: b ++ x :: c).length := by
    simp [List.length_append]
  rw [hs, hl]



/-- C3: with `ignore_header` set the byte budget is the total source size
minus the 17-byte header and the returned count is exactly that number
regardless of the length field; without it the budget is the `length`
field of the header. -/
theorem copy_budget (header : Header) (s : FileState) (c : List Nat)
    (h : 17 ≤ c.length) :
    (copy_phase header true s).1 = s.contents.length - 17 ∧
    (copy_phase header false s).1 = header.length ∧
    (strip_header ⟨c, 0⟩ true).map (fun r => r.2.2) = some (c.length - 17) := by
  refine ⟨by rw [copy_phase_eq]; simp, by rw [copy_phase_eq]; simp, ?_⟩
  rw [strip_header_eq c true h]
  simp

theorem copy_budget_witness :
    17 ≤ (List.replicate 20 9).length ∧
    ((copy_phase ⟨[], 0, 0, 5, 0, 0, 0⟩ true ⟨List.replicate 20 9, 0⟩).1
        = (List.replicate 20 9 : List Nat).length - 17 ∧
     (copy_phase ⟨[], 0, 0, 5, 0, 0, 0⟩ false ⟨List.replicate 20 9, 0⟩).1
        = (⟨[], 0, 0, 5, 0, 0, 0⟩ : Header).length ∧
     (strip_header ⟨List.replicate 20 9, 0⟩ true).map (fun r => r.2.2)
        = some ((List.replicate 20 9 : List Nat).length - 17)) :=
  ⟨by decide, copy_budget ⟨[], 0, 0, 5, 0, 0, 0⟩ ⟨List.replicate 20 9, 0⟩
    (List.replicate 20 9) (by decide)⟩

/-- C4: for a header declaring length `L` followed by exactly `L` payload
bytes, `strip_header` without the override copies exactly `L` bytes and
the sink equals the payload. -/
theorem copy_roundtrip (hdr payload : List Nat) (h17 : hdr.length = 17)
    (hlen : (mkHeader hdr).length = payload.length) :
    (strip_header ⟨hdr ++ payload, 0⟩ false).map (fun r => (r.2.1, r.2.2))
      = some (payload, payload.length) := by
  have hc : 17 ≤ (hdr ++ payload).length := by
    simp [List.length_append]
    omega
  rw [strip_header_eq _ false hc]
  have ht : (hdr ++ payload).take 17 = hdr := by
    rw [← h17]
    exact List.take_left hdr payload
  have hdp : (hdr ++ payload).drop 17 = payload := by
    rw [← h17]
    exact List.drop_left hdr payload
  have e2 : (hdr ++ payload).length - 17 = payload.length := by
    rw [List.length_append, h17]
    omega
  simp [ht, hdp, e2, hlen, List.take_length]
  omega



theorem copy_roundtrip_witness :
    ([0, 0, 0, 0, 0, 0, 0, 0, 0, 0, 0, 2, 0, 0, 0, 0, 0] : List Nat).length = 17 ∧
    (mkHeader [0, 0, 0, 0, 0, 0, 0, 0, 0, 0, 0, 2, 0, 0, 0, 0, 0]).length
      = ([5, 6] : List Nat).length ∧
    (strip_header ⟨[0, 0, 0, 0, 0, 0, 0, 0, 0, 0, 0, 2, 0, 0, 0, 0, 0] ++ [5, 6], 0⟩
        false).map (fun r => (r.2.1, r.2.2))
      = some ([5, 6], ([5, 6] : List Nat).length) :=
  ⟨by decide, by decide,
   copy_roundtrip [0, 0, 0, 0, 0, 0, 0, 0, 0, 0, 0, 2, 0, 0, 0, 0, 0] [5, 6]
     (by decide) (by decide)⟩

/-- C5: when the header declares more bytes than the source holds after
the header, `strip_header` does not fail and reports the count of bytes
actually transferred, with the sink holding exactly those bytes. -/
theorem copy_short_source (hdr payload : List Nat) (h17 : hdr.length = 17)
    (hshort : payload.length < (mkHeader hdr).length) :
    (strip_header ⟨hdr ++ payload, 0⟩ false).map (fun r => (r.2.1, r.2.2))
      = some (payload, payload.length) := by
  have hc : 17 ≤ (hdr ++ payload).length := by
    simp [List.length_append]
    omega
  rw [strip_header_eq _ false hc]
  have ht : (hdr ++ payload).take 17 = hdr := by
    rw [← h17]
    exact List.take_left hdr payload
  have hdp : (hdr ++ payload).drop 17 = payload := by
    rw [← h17]
    exact List.drop_left hdr payload
  have e2 : (hdr ++ payload).length - 17 = payload.length := by
    rw [List.length_append, h17]
    omega
  simp [ht, hdp, e2, List.take_of_length_le (Nat.le_of_lt hshort)]
  omega

theorem copy_short_source_witness :
    ([0, 0, 0, 0, 0, 0, 0, 0, 0, 0, 0, 9, 0, 0, 0, 0, 0] : List Nat).length = 17 ∧
    ([5, 6] : List Nat).length
      < (mkHeader [0, 0, 0, 0, 0, 0, 0, 0, 0, 0, 0, 9, 0, 0, 0, 0, 0]).length ∧
    (strip_header ⟨[0, 0, 0, 0, 0, 0, 0, 0, 0, 0, 0, 9, 0, 0, 0, 0, 0] ++ [5, 6], 0⟩
        false).map (fun r => (r.2.1, r.2.2))
      = some ([5, 6], ([5, 6] : List Nat).length) :=
  ⟨by decide, by decide,
   copy_short_source [0, 0, 0, 0, 0, 0, 0, 0, 0, 0, 0, 9, 0, 0, 0, 0, 0] [5, 6]
     (by decide) (by decide)⟩

/-- C6: over any 17-byte input the decoder is total and deterministic and
extracts the fields at their fixed little-endian offsets: filename at
bytes 0 to 7, filetype at byte 8, start at bytes 9 and 10, length at
bytes 11 and 12, first_sector at byte 13, occupied_sectors at byte 14 and
check_sum at bytes 15 and 16. -/
theorem decode_total_layout (data : List Nat) (h : data.length = 17) :
    unpackHeader data = some
      ⟨data.take 8, data.getD 8 0,
       data.getD 9 0 + 256 * data.getD 10 0,
       data.getD 11 0 + 256 * data.getD 12 0,
       data.getD 13 0, data.getD 14 0,
       data.getD 15 0 + 256 * data.getD 16 0⟩ :=
  unpackHeader_eq data h

theorem decode_total_layout_witness :
    ([10, 11, 12, 13, 14, 15, 16, 17, 66, 1, 2, 3, 4, 7, 8, 9, 6] : List Nat).length
        = 17 ∧
    unpackHeader [10, 11, 12, 13, 14, 15, 16, 17, 66, 1, 2, 3, 4, 7, 8, 9, 6]
      = some ⟨[10, 11, 12, 13, 14, 15, 16, 17], 66, 1 + 256 * 2, 3 + 256 * 4,
          7, 8, 9 + 256 * 6⟩ :=
  ⟨by decide,
   by
    have := decode_total_layout
      [10, 11, 12, 13, 14, 15, 16, 17, 66, 1, 2, 3, 4, 7, 8, 9, 6] (by decide)
    simpa using this⟩



/-- C7: decoding is all-or-nothing over exactly 17 bytes: the parse fails
(no header, no partial field extraction) precisely when the source holds
fewer than 17 bytes. -/
theorem decode_truncated (c : List Nat) :
    (parse_info ⟨c, 0⟩).1 = none ↔ c.length < 17 := by
  constructor
  · intro hn
    by_contra hge
    push_neg at hge
    rw [parse_info_eq c hge] at hn
    simp at hn
  · intro hlt
    have hshort : (c.take 17).length < 17 := by
      simp [List.length_take]
      omega
    have hu : unpackHeader (c.take 17) = none := by
      unfold unpackHeader header_size
      rw [if_pos hshort]
    unfold parse_info fread header_size
    dsimp only
    rw [List.drop_zero, hu]

/-- C8: a checksum mismatch is only a warning: whenever parsing succeeds
with a stored checksum different from the computed one, `show_info` still
completes (with the comparison flag false) and `strip_header` still
completes, flags the warning, and produces exactly the output of the copy
phase. -/
theorem mismatch_warning_only (s : FileState) (ig : Bool) (header : Header)
    (crc : Nat) (hp : (parse_info s).1 = some (header, crc))
    (hm : header.check_sum ≠ crc) :
    show_info s = some (header, crc, false) ∧
    strip_header s ig =
      some (true, (copy_phase header ig (parse_info s).2).2.1,
        (copy_phase header ig (parse_info s).2).2.2) := by
  have hbeq : (crc == header.check_sum) = false := by
    simp [Ne.symm hm]
  have hbne : (header.check_sum != crc) = true := bne_iff_ne.mpr hm
  constructor
  · unfold show_info
    rw [hp]
    dsimp only
    rw [hbeq]
  · unfold strip_header
    rw [hp]
    dsimp only
    rw [hbne]

theorem mismatch_warning_only_witness :
    (parse_info ⟨List.replicate 17 1, 0⟩).1
        = some (⟨List.replicate 8 1, 1, 257, 257, 1, 1, 257⟩, 3960) ∧
    (⟨List.replicate 8 1, 1, 257, 257, 1, 1, 257⟩ : Header).check_sum ≠ 3960 ∧
    (show_info ⟨List.replicate 17 1, 0⟩
        = some (⟨List.replicate 8 1, 1, 257, 257, 1, 1, 257⟩, 3960, false) ∧
     strip_header ⟨List.replicate 17 1, 0⟩ false =
       some (true,
         (copy_phase ⟨List.replicate 8 1, 1, 257, 257, 1, 1, 257⟩ false
           (parse_info ⟨List.replicate 17 1, 0⟩).2).2.1,
         (copy_phase ⟨List.replicate 8 1, 1, 257, 257, 1, 1, 257⟩ false
           (parse_info ⟨List.replicate 17 1, 0⟩).2).2.2)) :=
  ⟨by decide, by decide,
   mismatch_warning_only ⟨List.replicate 17 1, 0⟩ false
     ⟨List.replicate 8 1, 1, 257, 257, 1, 1, 257⟩ 3960 (by decide) (by decide)⟩

/-- C9: the copy phase always seeks back to absolute offset 17 before
transferring, so its result does not depend on the read position it
starts from, and every byte written to the sink comes from after the
17-byte header. -/
theorem copy_repositions_after_header (header : Header) (ig : Bool)
    (s : FileState) (p : Nat) :
    copy_phase header ig ⟨s.contents, p⟩ = copy_phase header ig s ∧
    (copy_phase header ig s).2.1 <+: s.contents.drop 17 := by
  constructor
  · rw [copy_phase_eq, copy_phase_eq]
  · rw [copy_phase_eq]
    exact List.take_prefix _ _

/-- C10: the sink receives exactly as many bytes as the reported count,
the count never exceeds the budget, and a zero budget (a zero length
field without the override, or an exactly-17-byte source with it) copies
nothing. -/
theorem copy_count_invariants (header hdr0 : Header) (ig : Bool)
    (s s0 : FileState) (c : List Nat)
    (hz : hdr0.length = 0) (h17 : c.length = 17) :
    ((copy_phase header ig s).2.1).length = (copy_phase header ig s).2.2 ∧
    (copy_phase header ig s).2.2 ≤ (copy_phase header ig s).1 ∧
    (copy_phase hdr0 false s0).2.2 = 0 ∧
    (copy_phase hdr0 false s0).2.1 = [] ∧
    (copy_phase header true ⟨c, 17⟩).2.2 = 0 ∧
    (copy_phase header true ⟨c, 17⟩).2.1 = [] := by
  refine ⟨?_, ?_, ?_, ?_, ?_, ?_⟩
  · rw [copy_phase_eq]
    simp [List.length_take, List.length_drop]
  · rw [copy_phase_eq]
    dsimp only
    omega
  · rw [copy_phase_eq]
    simp [hz]
  · rw [copy_phase_eq]
    simp [hz]
  · rw [copy_phase_eq]
    simp [h17]
  · rw [copy_phase_eq]
    simp [h17]

theorem copy_count_invariants_witness :
    (⟨[], 0, 0, 0, 0, 0, 0⟩ : Header).length = 0 ∧
    (List.replicate 17 4).length = 17 ∧
    (((copy_phase ⟨[], 66, 1, 3, 0, 0, 0⟩ true ⟨List.replicate 30 2, 0⟩).2.1).length
        = (copy_phase ⟨[], 66, 1, 3, 0, 0, 0⟩ true ⟨List.replicate 30 2, 0⟩).2.2 ∧
     (copy_phase ⟨[], 66, 1, 3, 0, 0, 0⟩ true ⟨List.replicate 30 2, 0⟩).2.2
        ≤ (copy_phase ⟨[], 66, 1, 3, 0, 0, 0⟩ true ⟨List.replicate 30 2, 0⟩).1 ∧
     (copy_phase ⟨[], 0, 0, 0, 0, 0, 0⟩ false ⟨List.replicate 30 2, 5⟩).2.2 = 0 ∧
     (copy_phase ⟨[], 0, 0, 0, 0, 0, 0⟩ false ⟨List.replicate 30 2, 5⟩).2.1 = [] ∧
     (copy_phase ⟨[], 66, 1, 3, 0, 0, 0⟩ true ⟨List.replicate 17 4, 17⟩).2.2 = 0 ∧
     (copy_phase ⟨[], 66, 1, 3, 0, 0, 0⟩ true ⟨List.replicate 17 4, 17⟩).2.1 = []) :=
  ⟨by decide, by decide,
   copy_count_invariants ⟨[], 66, 1, 3, 0, 0, 0⟩ ⟨[], 0, 0, 0, 0, 0, 0⟩ true
     ⟨List.replicate 30 2, 0⟩ ⟨List.replicate 30 2, 5⟩ (List.replicate 17 4)
     (by decide) (by decide)⟩


end Hobeta
